import Mathlib

/-!
Verification of the runtime-context core of the starship prompt renderer
(src/context.rs and src/utils.rs), as a shallow embedding in Lean 4.

Filesystem, process and environment effects are modelled by explicit
oracle functions passed as parameters; paths are modelled by their
component lists or by plain strings, whichever the code at hand needs.
-/

namespace Starship

/-- Insertion into a set modelled as a duplicate-free list
(models HashSet.insert from the Rust standard library). -/
def setInsert (x : String) (l : List String) : List String :=
  if l.contains x then l else x :: l

/-- DirContents (src/context.rs): the lookup sets built by a directory scan.
Sets are modelled as lists queried only through membership. -/
structure DirContents where
  files : List String
  file_names : List String
  folders : List String
  extensions : List String
deriving DecidableEq

/-- DirContents.has_file (src/context.rs). -/
def DirContents.has_file (d : DirContents) (path : String) : Bool :=
  d.files.contains path

/-- DirContents.has_file_name (src/context.rs). -/
def DirContents.has_file_name (d : DirContents) (name : String) : Bool :=
  d.file_names.contains name

/-- DirContents.has_folder (src/context.rs). -/
def DirContents.has_folder (d : DirContents) (path : String) : Bool :=
  d.folders.contains path

/-- DirContents.has_extension (src/context.rs). -/
def DirContents.has_extension (d : DirContents) (ext : String) : Bool :=
  d.extensions.contains ext

/-- DirContents.has_any_positive_file_name (src/context.rs). -/
def DirContents.has_any_positive_file_name (d : DirContents) (names : List String) : Bool :=
  names.any (fun name => !name.startsWith "!" && d.has_file_name name)

/-- DirContents.has_any_positive_folder (src/context.rs). -/
def DirContents.has_any_positive_folder (d : DirContents) (paths : List String) : Bool :=
  paths.any (fun path => !path.startsWith "!" && d.has_folder path)

/-- DirContents.has_any_positive_extension (src/context.rs). -/
def DirContents.has_any_positive_extension (d : DirContents) (exts : List String) : Bool :=
  exts.any (fun ext => !ext.startsWith "!" && d.has_extension ext)

/-- DirContents.has_no_negative_file_name (src/context.rs). -/
def DirContents.has_no_negative_file_name (d : DirContents) (names : List String) : Bool :=
  !(names.any (fun name => name.startsWith "!" && d.has_file_name (name.drop 1)))

/-- DirContents.has_no_negative_folder (src/context.rs). -/
def DirContents.has_no_negative_folder (d : DirContents) (paths : List String) : Bool :=
  !(paths.any (fun path => path.startsWith "!" && d.has_folder (path.drop 1)))

/-- DirContents.has_no_negative_extension (src/context.rs). -/
def DirContents.has_no_negative_extension (d : DirContents) (exts : List String) : Bool :=
  !(exts.any (fun ext => ext.startsWith "!" && d.has_extension (ext.drop 1)))

/-- ScanDir (src/context.rs): rule lists evaluated against a DirContents. -/
structure ScanDir where
  dir_contents : DirContents
  files : List String
  folders : List String
  extensions : List String

/-- ScanDir.is_match (src/context.rs). -/
def ScanDir.is_match (s : ScanDir) : Bool :=
  s.dir_contents.has_no_negative_extension s.extensions
    && s.dir_contents.has_no_negative_file_name s.files
    && s.dir_contents.has_no_negative_folder s.folders
    && (s.dir_contents.has_any_positive_extension s.extensions
        || s.dir_contents.has_any_positive_file_name s.files
        || s.dir_contents.has_any_positive_folder s.folders)

/-- Context.has_negated_env_var (src/context.rs): true when some entry of
the rule list carries a leading bang and names a set environment variable.
The environment is modelled by an oracle from variable names to optional
values. -/
def has_negated_env_var (env : String → Option String) (env_vars : List String) : Bool :=
  (env_vars.filterMap
      (fun env_var => if env_var.startsWith "!" then some (env_var.drop 1) else none)).any
    (fun env_var => (env env_var).isSome)

/-- Context.detect_env_vars (src/context.rs). -/
def detect_env_vars (env : String → Option String) (env_vars : List String) : Bool :=
  if env_vars.isEmpty then true
  else if has_negated_env_var env env_vars then false
  else
    let positives := env_vars.filter (fun env_var => !env_var.startsWith "!")
    positives.isEmpty || positives.any (fun env_var => (env env_var).isSome)

/-- OnceLock.get_or_init from the Rust standard library, as used by the two
Context caches: the cell state is an Option, a hit returns the stored value
untouched, a miss runs the computation and stores its result. The returned
pair is (reference handed to the caller, cell state afterwards). -/
def getOrInit {α : Type} (cell : Option α) (compute : Unit → α) : α × Option α :=
  match cell with
  | some v => (v, some v)
  | none =>
    let v := compute ()
    (v, some v)

/-- The two lazily initialized caches owned by a Context (src/context.rs):
dir_contents is a OnceLock of Result of DirContents / io Error, repo is a
OnceLock of Result of Repo / discover Error. Error payload types are kept
abstract. -/
structure ContextCaches (e1 a1 e2 a2 : Type) where
  dir_contents_cache : Option (Except e1 a1)
  repo_cache : Option (Except e2 a2)

/-- Context.dir_contents (src/context.rs): get_or_init on the dir_contents
OnceLock; the scan itself (DirContents::from_path_with_timeout on the
current directory) is the compute closure. -/
def dirContentsCall {e1 a1 e2 a2 : Type} (c : ContextCaches e1 a1 e2 a2)
    (compute : Unit → Except e1 a1) : Except e1 a1 × ContextCaches e1 a1 e2 a2 :=
  let r := getOrInit c.dir_contents_cache compute
  (r.1, { c with dir_contents_cache := r.2 })

/-- Context.get_repo (src/context.rs): get_or_init on the repo OnceLock;
repository discovery is the compute closure. -/
def getRepoCall {e1 a1 e2 a2 : Type} (c : ContextCaches e1 a1 e2 a2)
    (compute : Unit → Except e2 a2) : Except e2 a2 × ContextCaches e1 a1 e2 a2 :=
  let r := getOrInit c.repo_cache compute
  (r.1, { c with repo_cache := r.2 })

/-- CommandOutput (src/utils.rs): captured stdout and stderr text. -/
structure CommandOutput where
  stdout : String
  stderr : String
deriving DecidableEq

/-- A spawned command: resolved program path, argument list, extra
environment entries (models std::process::Command as configured by this
code). -/
structure CommandSpec where
  program : String
  args : List String
  envs : List (String × String)
deriving DecidableEq

/-- create_command (src/utils.rs): resolve the binary on the search path
(the which crate, modelled by an oracle); a failed lookup is an Err, a
successful one yields a Command with captured stdio pointed at the resolved
path. -/
def create_command (which : String → Option String) (binary_name : String) :
    Except Unit CommandSpec :=
  match which binary_name with
  | some full_path => Except.ok { program := full_path, args := [], envs := [] }
  | none => Except.error ()

/-- Outcome of process_control's controlled wait in exec_timeout
(src/utils.rs): Ok(Some(output)) carries raw stdout/stderr bytes and the
exit status; Ok(None) is a timeout (child forcibly terminated); Err is a
wait failure. -/
inductive WaitOutcome : Type
  | completed (stdout stderr : List Nat) (exitSuccess : Bool)
  | timedOut
  | waitFailed
deriving DecidableEq

/-- exec_timeout (src/utils.rs). The spawn result is Err when cmd.spawn()
fails, otherwise the controlled wait outcome; utf8 models
String::from_utf8, returning none on invalid bytes. -/
def exec_timeout (utf8 : List Nat → Option String) (spawn : Except Unit WaitOutcome) :
    Option CommandOutput :=
  match spawn with
  | Except.error _ => none
  | Except.ok (WaitOutcome.completed out err success) =>
    match utf8 out with
    | none => none
    | some stdout_string =>
      match utf8 err with
      | none => none
      | some stderr_string =>
        if !success then none
        else some { stdout := stdout_string, stderr := stderr_string }
  | Except.ok WaitOutcome.timedOut => none
  | Except.ok WaitOutcome.waitFailed => none

/-- Context.exec_cmd / internal_exec_cmd (src/context.rs, src/utils.rs),
non-test build: create_command, bail out with None on Err, then
exec_timeout; the spawn oracle gives the wait outcome of the configured
command. -/
def exec_cmd (which : String → Option String) (utf8 : List Nat → Option String)
    (binary : String) (spawn : CommandSpec → Except Unit WaitOutcome) :
    Option CommandOutput :=
  match create_command which binary with
  | Except.error _ => none
  | Except.ok cmd => exec_timeout utf8 (spawn cmd)

/-- One raw entry yielded by fs::read_dir during
DirContents::from_path_with_timeout (src/context.rs). The scan is
non-recursive, so the path relative to the base is the entry's file name.
pathIsDir models entry.path().is_dir() (symlinks followed); symlinkIsDir
models fs::symlink_metadata(...).map(is_dir) with a failed metadata call as
none. read_dir never yields the dot or dot-dot entries. -/
structure DirEntry where
  name : String
  pathIsDir : Bool
  symlinkIsDir : Option Bool
deriving DecidableEq

/-- str::starts_with with a char pattern, as used by the hidden-entry test
in the directory scan: the first character equals the pattern. -/
def startsWithChar (c : Char) (s : String) : Bool :=
  s.data.head? = some c

/-- str::split_once with a char pattern: the pieces before and after the
first occurrence, or none when the character does not occur. -/
def splitOnceChar (c : Char) : List Char → Option (List Char × List Char)
  | [] => none
  | x :: xs =>
    if x = c then some ([], xs)
    else (splitOnceChar c xs).map (fun p => (x :: p.1, p.2))

/-- str::split_once on a dot (the full-extension extraction of the scan). -/
def splitOnceDot (s : String) : Option (String × String) :=
  (splitOnceChar ('.' : Char) s.data).map (fun p => (String.mk p.1, String.mk p.2))

/-- str::rsplit_once on a dot: the pieces before and after the last
occurrence. -/
def rsplitOnceDot (s : String) : Option (String × String) :=
  (splitOnceChar ('.' : Char) s.data.reverse).map
    (fun p => (String.mk p.2.reverse, String.mk p.1.reverse))

/-- Path::extension of a file name (the minimal-extension extraction of the
scan): the part after the last dot, none when there is no dot, when the
name is precisely dot-dot, or when the only dot is the leading one (mirrors
split_file_at_dot in the Rust standard library). -/
def pathExtension (name : String) : Option String :=
  if name = ".." then none
  else
    match rsplitOnceDot name with
    | none => none
    | some (before, after) => if before = "" then none else some after

/-- The per-entry body of the for_each in
DirContents::from_path_with_timeout (src/context.rs): classify the entry as
folder or file according to follow_symlinks, record the two extensions of a
non-hidden file, and record every file in the files and file_names sets. -/
def processEntry (follow_symlinks : Bool) (acc : DirContents) (entry : DirEntry) :
    DirContents :=
  let is_dir := if follow_symlinks then entry.pathIsDir else entry.symlinkIsDir.getD false
  if is_dir then
    { acc with folders := setInsert entry.name acc.folders }
  else
    let extensions1 :=
      if !(startsWithChar ('.' : Char) entry.name) then
        let extensions0 :=
          match pathExtension entry.name with
          | some ext => setInsert ext acc.extensions
          | none => acc.extensions
        match splitOnceDot entry.name with
        | some p => setInsert p.2 extensions0
        | none => extensions0
      else acc.extensions
    { acc with
      extensions := extensions1
      file_names := setInsert entry.name acc.file_names
      files := setInsert entry.name acc.files }

/-- The enumerate-take_while prefix of the raw read_dir listing in
DirContents::from_path_with_timeout (src/context.rs): entry n is kept while
cfg_test holds, or n land 0xFF is nonzero, or the elapsed time is still
under the timeout (elapsed_lt n models start.elapsed() < timeout at the
moment entry n is reached); the first failing check stops the scan for
good. Failed individual entries (entry.ok() misses) are the none elements. -/
def scanEnum (cfg_test : Bool) (elapsed_lt : Nat → Bool) :
    Nat → List (Option DirEntry) → List (Option DirEntry)
  | _, [] => []
  | n, e :: es =>
    if cfg_test || (n &&& 0xFF != 0) || elapsed_lt n then
      e :: scanEnum cfg_test elapsed_lt (n + 1) es
    else []

/-- DirContents::from_path_with_timeout (src/context.rs), non-test build:
propagate a failed initial read_dir as Err; otherwise keep the
take_while prefix, drop failed entries, process each survivor into the four
sets, and return Ok. -/
def from_path_with_timeout (follow_symlinks : Bool) (elapsed_lt : Nat → Bool)
    (read_dir : Except Nat (List (Option DirEntry))) : Except Nat DirContents :=
  match read_dir with
  | Except.error e => Except.error e
  | Except.ok entries =>
    Except.ok
      (((scanEnum false elapsed_lt 0 entries).filterMap id).foldl
        (processEntry follow_symlinks) (DirContents.mk [] [] [] []))

/-- Oracle view of the filesystem for the ancestor scan: file test,
directory test and device identifier (PathExt::device_id, src/utils.rs:
metadata's device number, none when the metadata call fails). Paths are
component lists; the empty list is the path with no parent, so popping the
last component models PathBuf::pop with a false return at the top. -/
structure FsOracle where
  isFile : List String → Bool
  isDir : List String → Bool
  deviceId : List String → Option Nat

/-- ScanAncestors (src/context.rs): starting path and the file and folder
names to search for. -/
structure ScanAncestors where
  path : List String
  files : List String
  folders : List String

/-- Whether a level of the walk contains one of the configured markers:
each file name is tested (in list order) before each folder name (in list
order); since a hit returns the level itself, the first hit and any hit
give the same outcome. -/
def levelHasMarker (fs : FsOracle) (files folders : List String)
    (buf : List String) : Bool :=
  files.any (fun file => fs.isFile (buf ++ [file]))
    || folders.any (fun folder => fs.isDir (buf ++ [folder]))

/-- The loop of ScanAncestors::scan (src/context.rs): break with none when
the device identifier differs from the starting one, return the current
level on a file or folder hit, otherwise pop one component and continue,
breaking with none when there is nothing left to pop. -/
def scanLoop (fs : FsOracle) (files folders : List String)
    (initial_device_id : Option Nat) (buf : List String) : Option (List String) :=
  if initial_device_id ≠ fs.deviceId buf then none
  else if files.any (fun file => fs.isFile (buf ++ [file])) then some buf
  else if folders.any (fun folder => fs.isDir (buf ++ [folder])) then some buf
  else if h : buf = [] then none
  else scanLoop fs files folders initial_device_id buf.dropLast
termination_by buf.length
decreasing_by
  simp only [List.length_dropLast]
  have hpos : 0 < buf.length := List.length_pos.mpr h
  omega

/-- ScanAncestors.scan (src/context.rs): record the starting path's device
identifier, then walk upward. -/
def ScanAncestors.scan (fs : FsOracle) (s : ScanAncestors) : Option (List String) :=
  scanLoop fs s.files s.folders (fs.deviceId s.path) s.path

/-- k-fold dropLast: the k-th ancestor level reached by the walk. -/
def iterDropLast : Nat → List String → List String
  | 0, l => l
  | k + 1, l => iterDropLast k l.dropLast

/-- Shell (src/context.rs): the shell the user is assumed to be running. -/
inductive Shell : Type
  | Bash
  | Fish
  | Ion
  | Pwsh
  | PowerShell
  | Zsh
  | Elvish
  | Tcsh
  | Nu
  | Xonsh
  | Cmd
  | Unknown
deriving DecidableEq

/-- The marker pair chosen by wrap_seq_for_shell (src/utils.rs): backslash
and bracket for Bash, percent and brace for Tcsh and Zsh, none for every
other shell (written with the same escapes the source uses). -/
def shellWrapMarkers : Shell → Option (String × String)
  | Shell.Bash => some ("\x5c\x5b", "\x5c\x5d")
  | Shell.Tcsh => some ("\x25\x7b", "\x25\x7d")
  | Shell.Zsh => some ("\x25\x7b", "\x25\x7d")
  | _ => none

/-- The per-character closure of wrap_seq_for_shell (src/utils.rs): given
the current escaped flag and a character, the emitted text and the new
flag. -/
def wrapChar (beg fin : String) (escape_begin escape_end : Char)
    (escaped : Bool) (x : Char) : String × Bool :=
  if x = escape_begin && !escaped then (beg ++ escape_begin.toString, true)
  else if x = escape_end && escaped then (escape_end.toString ++ fin, false)
  else (x.toString, escaped)

/-- wrap_seq_for_shell (src/utils.rs): single left-to-right scan over the
characters with one escaped flag, concatenating the per-character output. -/
def wrap_seq_for_shell (ansi : String) (shell : Shell)
    (escape_begin escape_end : Char) : String :=
  match shellWrapMarkers shell with
  | none => ansi
  | some (beg, fin) =>
    (ansi.data.foldl
      (fun acc x =>
        let r := wrapChar beg fin escape_begin escape_end acc.2 x
        (acc.1 ++ r.1, r.2))
      ("", false)).1

/-- wrap_colorseq_for_shell (src/utils.rs): fixes the delimiters to the
ANSI escape introducer and terminator. -/
def wrap_colorseq_for_shell (ansi : String) (shell : Shell) : String :=
  wrap_seq_for_shell ansi shell (Char.ofNat 0x1b) (Char.ofNat 0x6d)

/-- Recursive form of the wrap_seq_for_shell scan, used to state its
left-to-right single-flag behavior. -/
def wrapGo (beg fin : String) (escape_begin escape_end : Char) :
    Bool → List Char → String
  | _, [] => ""
  | escaped, x :: xs =>
    (wrapChar beg fin escape_begin escape_end escaped x).1
      ++ wrapGo beg fin escape_begin escape_end
          (wrapChar beg fin escape_begin escape_end escaped x).2 xs

/-- Repo (src/context.rs), restricted to the fields Repo::exec_git reads:
the optional working-tree path (absent for bare repositories), the path of
the repository's git metadata directory, and the recorded core.fsmonitor
boolean. Paths are plain strings here. -/
structure Repo where
  workdir : Option String
  path : String
  fs_monitor_value_is_true : Bool
deriving DecidableEq

/-- Repo.exec_git (src/context.rs), command-construction part: the
CommandSpec handed to exec_timeout, or none when the git binary is not on
the search path. -/
def Repo.exec_git_command (repo : Repo) (which : String → Option String)
    (current_dir : String) (git_args : List String) : Option CommandSpec :=
  match create_command which "git" with
  | Except.error _ => none
  | Except.ok command =>
    let fsm_config_value :=
      if repo.fs_monitor_value_is_true then "core.fsmonitor=true" else "core.fsmonitor="
    let command := { command with
      envs := command.envs ++ [("GIT_OPTIONAL_LOCKS", "0")],
      args := command.args
        ++ ["-C", current_dir, "--git-dir", repo.path, "-c", fsm_config_value] }
    let command :=
      match repo.workdir with
      | some wt => { command with args := command.args ++ ["--work-tree", wt] }
      | none => command
    some { command with args := command.args ++ git_args }

/-- Context.expand_tilde (src/context.rs): a path starting with the tilde
component is re-rooted at the home directory. Paths are modelled by their
component lists; starts_with and strip_prefix on Path are component-wise. -/
def expand_tilde (home : List String) (dir : List String) : List String :=
  if dir.head? = some "~" then home ++ dir.tail else dir

/-- Context.new_with_shell_and_path (src/context.rs), directory-resolution
part: current_dir is the tilde-expanded path canonicalized when
canonicalization succeeds (dunce::canonicalize, modelled by an oracle),
otherwise the tilde-expanded path unchanged; logical_dir is the logical
path argument verbatim. -/
def contextDirs (home : List String) (canonicalize : List String → Option (List String))
    (path logical_path : List String) : List String × List String :=
  let current_dir := expand_tilde home path
  let current_dir := (canonicalize current_dir).getD current_dir
  (current_dir, logical_path)

end Starship

namespace Starship

/-- Claim C1: ScanDir.is_match holds iff no negated file name, folder or
extension from the rule lists is present in the directory index, and at
least one unprefixed (positive) file name, folder or extension is present;
in particular, when every positive entry is absent the rule set does not
match even if no negative entry is present. -/
theorem c1_is_match_iff (s : ScanDir) :
    s.is_match = true ↔
      ((∀ e ∈ s.extensions, e.startsWith "!" → s.dir_contents.has_extension (e.drop 1) = false)
        ∧ (∀ f ∈ s.files, f.startsWith "!" → s.dir_contents.has_file_name (f.drop 1) = false)
        ∧ (∀ p ∈ s.folders, p.startsWith "!" → s.dir_contents.has_folder (p.drop 1) = false))
      ∧ ((∃ e ∈ s.extensions, ¬e.startsWith "!" ∧ s.dir_contents.has_extension e = true)
        ∨ (∃ f ∈ s.files, ¬f.startsWith "!" ∧ s.dir_contents.has_file_name f = true)
        ∨ (∃ p ∈ s.folders, ¬p.startsWith "!" ∧ s.dir_contents.has_folder p = true)) := by
  simp only [ScanDir.is_match, DirContents.has_no_negative_extension,
    DirContents.has_no_negative_file_name, DirContents.has_no_negative_folder,
    DirContents.has_any_positive_extension, DirContents.has_any_positive_file_name,
    DirContents.has_any_positive_folder, Bool.and_eq_true, Bool.or_eq_true,
    Bool.not_eq_true', List.any_eq_false, List.any_eq_true, not_and,
    Bool.not_eq_true]
  constructor
  · rintro ⟨⟨⟨he, hf⟩, hp⟩, (⟨e, hke, h1, h2⟩ | ⟨f, hkf, h1, h2⟩) | ⟨p, hkp, h1, h2⟩⟩
    · exact ⟨⟨he, hf, hp⟩, Or.inl ⟨e, hke, h1, h2⟩⟩
    · exact ⟨⟨he, hf, hp⟩, Or.inr (Or.inl ⟨f, hkf, h1, h2⟩)⟩
    · exact ⟨⟨he, hf, hp⟩, Or.inr (Or.inr ⟨p, hkp, h1, h2⟩)⟩
  · rintro ⟨⟨he, hf, hp⟩, ⟨e, hke, h1, h2⟩ | ⟨f, hkf, h1, h2⟩ | ⟨p, hkp, h1, h2⟩⟩
    · exact ⟨⟨⟨he, hf⟩, hp⟩, Or.inl (Or.inl ⟨e, hke, h1, h2⟩)⟩
    · exact ⟨⟨⟨he, hf⟩, hp⟩, Or.inl (Or.inr ⟨f, hkf, h1, h2⟩)⟩
    · exact ⟨⟨⟨he, hf⟩, hp⟩, Or.inr ⟨p, hkp, h1, h2⟩⟩

/-- Claim C10: detect_env_vars returns true on the empty rule list; otherwise
it returns false whenever some bang-prefixed entry names a set environment
variable; otherwise it returns true iff the list has no unprefixed entries at
all, or some unprefixed entry names a set variable — so a list of only negated
entries, none of them set, yields true. -/
theorem c10_detect_env_vars_iff (env : String → Option String) (env_vars : List String) :
    detect_env_vars env env_vars = true ↔
      (env_vars = [] ∨
        ((∀ v ∈ env_vars, v.startsWith "!" = true → env (v.drop 1) = none)
          ∧ ((∀ v ∈ env_vars, v.startsWith "!" = true)
              ∨ ∃ v ∈ env_vars, v.startsWith "!" = false ∧ (env v).isSome = true))) := by
  by_cases h0 : env_vars = []
  · subst h0
    simp [detect_env_vars]
  · have hne : env_vars.isEmpty = false := by
      simpa [List.isEmpty_iff] using h0
    have hneg : has_negated_env_var env env_vars = true ↔
        ∃ v ∈ env_vars, v.startsWith "!" = true ∧ (env (v.drop 1)).isSome = true := by
      simp only [has_negated_env_var, List.any_eq_true, List.mem_filterMap]
      constructor
      · rintro ⟨a, ⟨v, hv, hsome⟩, hset⟩
        by_cases hb : v.startsWith "!"
        · simp only [hb, if_true, Option.some.injEq] at hsome
          exact ⟨v, hv, hb, by simpa [hsome] using hset⟩
        · simp [hb] at hsome
      · rintro ⟨v, hv, hb, hset⟩
        exact ⟨v.drop 1, ⟨v, hv, by simp [hb]⟩, hset⟩
    simp only [detect_env_vars, hne, Bool.false_eq_true, if_false]
    by_cases hn : has_negated_env_var env env_vars = true
    · rw [if_pos hn]
      rw [hneg] at hn
      obtain ⟨v, hv, hb, hset⟩ := hn
      simp only [Bool.false_eq_true, false_iff]
      rintro (h | ⟨habs, _⟩)
      · exact h0 h
      · rw [habs v hv hb] at hset
        simp at hset
    · rw [if_neg hn]
      rw [hneg] at hn
      push_neg at hn
      have habs : ∀ v ∈ env_vars, v.startsWith "!" = true → env (v.drop 1) = none := by
        intro v hv hb
        have := hn v hv hb
        simpa [Option.isSome_iff_ne_none] using this
      simp only [Bool.or_eq_true, List.isEmpty_iff, List.filter_eq_nil_iff,
        List.any_eq_true, List.mem_filter, Bool.not_eq_eq_eq_not, Bool.not_true,
        Bool.and_eq_true]
      constructor
      · rintro (hall | ⟨v, ⟨hv, hpos⟩, hset⟩)
        · refine Or.inr ⟨habs, Or.inl ?_⟩
          intro v hv
          have := hall v hv
          simpa using this
        · exact Or.inr ⟨habs, Or.inr ⟨v, hv, by simpa using hpos, hset⟩⟩
      · rintro (h | ⟨_, hall | ⟨v, hv, hpos, hset⟩⟩)
        · exact absurd h h0
        · exact Or.inl (fun v hv => by simpa using hall v hv)
        · exact Or.inr ⟨v, ⟨hv, by simpa using hpos⟩, hset⟩

/-- Claim C2: each Context cache accessor computes its value at most once.
On a fresh cache the first call runs the computation and stores its Result;
on a filled cache the call returns the stored Result and leaves the state
untouched; hence any second call — with an arbitrary, possibly different
computation — returns exactly the first call's Result and changes nothing,
and this holds equally when the stored Result is an error, which is never
retried. -/
theorem c2_caches_write_once {e1 a1 e2 a2 : Type} (c : ContextCaches e1 a1 e2 a2)
    (f g : Unit → Except e1 a1) (r s : Unit → Except e2 a2) :
    (c.dir_contents_cache = none →
        (dirContentsCall c f).1 = f ()
          ∧ (dirContentsCall c f).2.dir_contents_cache = some (f ()))
    ∧ (∀ v, c.dir_contents_cache = some v →
        (dirContentsCall c f).1 = v ∧ (dirContentsCall c f).2 = c)
    ∧ ((dirContentsCall (dirContentsCall c f).2 g).1 = (dirContentsCall c f).1
        ∧ (dirContentsCall (dirContentsCall c f).2 g).2 = (dirContentsCall c f).2)
    ∧ (c.repo_cache = none →
        (getRepoCall c r).1 = r () ∧ (getRepoCall c r).2.repo_cache = some (r ()))
    ∧ (∀ v, c.repo_cache = some v →
        (getRepoCall c r).1 = v ∧ (getRepoCall c r).2 = c)
    ∧ ((getRepoCall (getRepoCall c r).2 s).1 = (getRepoCall c r).1
        ∧ (getRepoCall (getRepoCall c r).2 s).2 = (getRepoCall c r).2) := by
  obtain ⟨dc, rc⟩ := c
  refine ⟨?_, ?_, ?_, ?_, ?_, ?_⟩
  · rintro rfl
    simp [dirContentsCall, getOrInit]
  · rintro v rfl
    simp [dirContentsCall, getOrInit]
  · cases dc <;> simp [dirContentsCall, getOrInit]
  · rintro rfl
    simp [getRepoCall, getOrInit]
  · rintro v rfl
    simp [getRepoCall, getOrInit]
  · cases rc <;> simp [getRepoCall, getOrInit]

/-- Witness for C2 at a concrete cache state and concrete computations. -/
theorem c2_caches_write_once_witness :
    (dirContentsCall
        (ContextCaches.mk none (some (Except.error 7)) : ContextCaches Nat Nat Nat Nat)
        (fun _ => Except.ok 3)).1 = Except.ok 3
    ∧ (getRepoCall
        (ContextCaches.mk none (some (Except.error 7)) : ContextCaches Nat Nat Nat Nat)
        (fun _ => Except.ok 5)).1 = Except.error 7 := by
  have h := c2_caches_write_once
    (ContextCaches.mk none (some (Except.error 7)) : ContextCaches Nat Nat Nat Nat)
    (fun _ => Except.ok 3) (fun _ => Except.ok 4)
    (fun _ => Except.ok 5) (fun _ => Except.ok 6)
  exact ⟨(h.1 rfl).1, (h.2.2.2.2.1 (Except.error 7) rfl).1⟩

/-- Claim C3: command execution collapses every failure mode to None: a
binary missing from the search path, a spawn failure, a timeout, a wait
failure, invalid UTF-8 on either captured stream, and a non-zero exit all
yield None; a zero exit within the timeout with decodable output yields
Some of exactly the captured stdout and stderr text. -/
theorem c3_exec_collapses_failures (which : String → Option String)
    (utf8 : List Nat → Option String) (binary : String)
    (spawn : CommandSpec → Except Unit WaitOutcome) :
    (which binary = none → exec_cmd which utf8 binary spawn = none)
    ∧ (exec_timeout utf8 (Except.error ()) = none)
    ∧ (exec_timeout utf8 (Except.ok WaitOutcome.timedOut) = none)
    ∧ (exec_timeout utf8 (Except.ok WaitOutcome.waitFailed) = none)
    ∧ (∀ out err success, utf8 out = none →
        exec_timeout utf8 (Except.ok (WaitOutcome.completed out err success)) = none)
    ∧ (∀ out err success, utf8 err = none →
        exec_timeout utf8 (Except.ok (WaitOutcome.completed out err success)) = none)
    ∧ (∀ out err,
        exec_timeout utf8 (Except.ok (WaitOutcome.completed out err false)) = none)
    ∧ (∀ out err so se, utf8 out = some so → utf8 err = some se →
        exec_timeout utf8 (Except.ok (WaitOutcome.completed out err true))
          = some (CommandOutput.mk so se))
    ∧ (∀ full_path, which binary = some full_path →
        exec_cmd which utf8 binary spawn
          = exec_timeout utf8 (spawn (CommandSpec.mk full_path [] []))) := by
  refine ⟨?_, rfl, rfl, rfl, ?_, ?_, ?_, ?_, ?_⟩
  · intro h
    simp [exec_cmd, create_command, h]
  · intro out err success h
    simp [exec_timeout, h]
  · intro out err success h
    cases ho : utf8 out <;> simp [exec_timeout, ho, h]
  · intro out err
    cases ho : utf8 out <;> cases he : utf8 err <;> simp [exec_timeout, ho, he]
  · intro out err so se ho he
    simp [exec_timeout, ho, he]
  · intro full_path h
    simp [exec_cmd, create_command, h]

/-- Witness for C3 at concrete oracles: a missing binary yields None, a
timeout yields None, a non-zero exit yields None, invalid UTF-8 yields
None, and a clean zero exit yields the captured text. -/
theorem c3_exec_collapses_failures_witness :
    (exec_cmd (fun _ => none) (fun _ => some "") "git"
        (fun _ => Except.ok WaitOutcome.timedOut) = none)
    ∧ (exec_timeout (fun _ => some "") (Except.ok WaitOutcome.timedOut) = none)
    ∧ (exec_timeout (fun _ => none) (Except.ok (WaitOutcome.completed [255] [] true)) = none)
    ∧ (exec_timeout (fun _ => some "")
        (Except.ok (WaitOutcome.completed [] [] false)) = none)
    ∧ (exec_timeout (fun b => if b = [104] then some "h" else some "")
        (Except.ok (WaitOutcome.completed [104] [] true))
          = some (CommandOutput.mk "h" "")) := by
  have h1 := c3_exec_collapses_failures (fun _ => none) (fun _ => some "") "git"
    (fun _ => Except.ok WaitOutcome.timedOut)
  have h2 := c3_exec_collapses_failures (fun _ => some "/usr/bin/git") (fun _ => none) "git"
    (fun _ => Except.ok WaitOutcome.timedOut)
  have h3 := c3_exec_collapses_failures (fun _ => some "/usr/bin/git")
    (fun b => if b = [104] then some "h" else some "") "git"
    (fun _ => Except.ok WaitOutcome.timedOut)
  refine ⟨h1.1 rfl, h1.2.2.1, ?_, ?_, ?_⟩
  · exact h2.2.2.2.2.1 [255] [] true rfl
  · exact h3.2.2.2.2.2.2.1 [] []
  · exact h3.2.2.2.2.2.2.2.1 [104] [] "h" "" rfl rfl

/-- The foldl scan of wrap_seq_for_shell equals the recursive scan wrapGo,
for any starting accumulator and flag. -/
theorem wrapFold_eq_wrapGo (beg fin : String) (eb ee : Char) (xs : List Char)
    (s : String) (b : Bool) :
    (xs.foldl
        (fun acc x =>
          let r := wrapChar beg fin eb ee acc.2 x
          (acc.1 ++ r.1, r.2)) (s, b)).1
      = s ++ wrapGo beg fin eb ee b xs := by
  induction xs generalizing s b with
  | nil => simp [wrapGo]
  | cons x xs ih =>
    simp only [List.foldl_cons, wrapGo, ih, String.append_assoc]

/-- Claim C7: wrap_seq_for_shell is a single left-to-right scan with one
escaped flag: a begin delimiter seen with the flag clear emits the shell's
open marker then the delimiter and sets the flag; an end delimiter seen
with the flag set emits the delimiter then the close marker and clears the
flag; every other character passes through; the markers are the
backslash-bracket pair for Bash and the percent-brace pair for Zsh and
Tcsh; for every other shell the function returns its input unchanged. -/
theorem c7_wrap_seq_scan (shell : Shell) (eb ee : Char) :
    (shell ≠ Shell.Bash → shell ≠ Shell.Zsh → shell ≠ Shell.Tcsh →
        ∀ ansi, wrap_seq_for_shell ansi shell eb ee = ansi)
    ∧ (shellWrapMarkers Shell.Bash = some ("\x5c\x5b", "\x5c\x5d")
        ∧ shellWrapMarkers Shell.Zsh = some ("\x25\x7b", "\x25\x7d")
        ∧ shellWrapMarkers Shell.Tcsh = some ("\x25\x7b", "\x25\x7d"))
    ∧ (∀ beg fin, shellWrapMarkers shell = some (beg, fin) →
        ∀ ansi, wrap_seq_for_shell ansi shell eb ee = wrapGo beg fin eb ee false ansi.data)
    ∧ (∀ beg fin escaped, wrapGo beg fin eb ee escaped [] = "")
    ∧ (∀ beg fin xs, wrapGo beg fin eb ee false (eb :: xs)
        = beg ++ eb.toString ++ wrapGo beg fin eb ee true xs)
    ∧ (∀ beg fin xs, wrapGo beg fin eb ee true (ee :: xs)
        = ee.toString ++ fin ++ wrapGo beg fin eb ee false xs)
    ∧ (∀ beg fin x xs, x ≠ eb →
        wrapGo beg fin eb ee false (x :: xs)
          = x.toString ++ wrapGo beg fin eb ee false xs)
    ∧ (∀ beg fin x xs, x ≠ ee →
        wrapGo beg fin eb ee true (x :: xs)
          = x.toString ++ wrapGo beg fin eb ee true xs) := by
  refine ⟨?_, ⟨rfl, rfl, rfl⟩, ?_, ?_, ?_, ?_, ?_, ?_⟩
  · intro h1 h2 h3 ansi
    cases shell <;> first
      | rfl
      | exact absurd rfl h1
      | exact absurd rfl h2
      | exact absurd rfl h3
  · intro beg fin h ansi
    simp only [wrap_seq_for_shell, h]
    simpa using wrapFold_eq_wrapGo beg fin eb ee ansi.data "" false
  · intro beg fin escaped
    rfl
  · intro beg fin xs
    simp [wrapGo, wrapChar, String.append_assoc]
  · intro beg fin xs
    simp [wrapGo, wrapChar, String.append_assoc]
  · intro beg fin x xs hx
    simp [wrapGo, wrapChar, hx]
  · intro beg fin x xs hx
    simp [wrapGo, wrapChar, hx]

/-- Witness for C7: a shell outside the known set is a no-op, and the Zsh
scan brackets a one-character escape sequence in the percent-brace pair. -/
theorem c7_wrap_seq_scan_witness :
    wrap_seq_for_shell "ab" Shell.Fish (Char.ofNat 0x1b) (Char.ofNat 0x6d) = "ab"
    ∧ wrap_seq_for_shell "a" Shell.Zsh (Char.ofNat 0x1b) (Char.ofNat 0x6d)
        = wrapGo "\x25\x7b" "\x25\x7d" (Char.ofNat 0x1b) (Char.ofNat 0x6d) false "a".data := by
  have h1 := c7_wrap_seq_scan Shell.Fish (Char.ofNat 0x1b) (Char.ofNat 0x6d)
  have h2 := c7_wrap_seq_scan Shell.Zsh (Char.ofNat 0x1b) (Char.ofNat 0x6d)
  exact ⟨h1.1 (by decide) (by decide) (by decide) "ab",
    h2.2.2.1 "\x25\x7b" "\x25\x7d" rfl "a"⟩

/-- Claim C8: Repo.exec_git builds the git invocation with the
GIT_OPTIONAL_LOCKS=0 environment entry and, before the caller's arguments,
the flags -C current_dir, --git-dir repo.path and -c core.fsmonitor=true or
-c core.fsmonitor= according to the recorded boolean; the --work-tree pair
is appended exactly when the repository has a working directory and omitted
for bare repositories. -/
theorem c8_exec_git_flags (repo : Repo) (which : String → Option String)
    (current_dir : String) (git_args : List String) (full_path : String)
    (h : which "git" = some full_path) :
    repo.exec_git_command which current_dir git_args
      = some (CommandSpec.mk full_path
          (["-C", current_dir, "--git-dir", repo.path, "-c",
            if repo.fs_monitor_value_is_true then "core.fsmonitor=true"
            else "core.fsmonitor="]
            ++ (match repo.workdir with
                | some wt => ["--work-tree", wt]
                | none => [])
            ++ git_args)
          [("GIT_OPTIONAL_LOCKS", "0")]) := by
  obtain ⟨wd, p, fsm⟩ := repo
  cases wd <;> simp [Repo.exec_git_command, create_command, h]

/-- Witness for C8: a work-tree repository gets the --work-tree pair, a
bare one does not; fsmonitor is forced off when the recorded value is
false. -/
theorem c8_exec_git_flags_witness :
    (Repo.mk (some "/w") "/w/.git" true).exec_git_command
        (fun b => if b = "git" then some "/usr/bin/git" else none) "/w" ["status"]
      = some (CommandSpec.mk "/usr/bin/git"
          ["-C", "/w", "--git-dir", "/w/.git", "-c", "core.fsmonitor=true",
            "--work-tree", "/w", "status"]
          [("GIT_OPTIONAL_LOCKS", "0")])
    ∧ (Repo.mk none "/b.git" false).exec_git_command
        (fun b => if b = "git" then some "/usr/bin/git" else none) "/b" ["status"]
      = some (CommandSpec.mk "/usr/bin/git"
          ["-C", "/b", "--git-dir", "/b.git", "-c", "core.fsmonitor=", "status"]
          [("GIT_OPTIONAL_LOCKS", "0")]) := by
  have h1 := c8_exec_git_flags (Repo.mk (some "/w") "/w/.git" true)
    (fun b => if b = "git" then some "/usr/bin/git" else none) "/w" ["status"]
    "/usr/bin/git" (by decide)
  have h2 := c8_exec_git_flags (Repo.mk none "/b.git" false)
    (fun b => if b = "git" then some "/usr/bin/git" else none) "/b" ["status"]
    "/usr/bin/git" (by decide)
  exact ⟨h1, h2⟩

/-- Membership after setInsert: the inserted element is present. -/
theorem mem_setInsert_self (x : String) (l : List String) : x ∈ setInsert x l := by
  simp only [setInsert]
  split
  · next h => exact List.mem_of_elem_eq_true h
  · next h => exact List.mem_cons_self x l

/-- Membership after setInsert: existing elements stay present. -/
theorem mem_setInsert_of_mem (x y : String) (l : List String) (hy : y ∈ l) :
    y ∈ setInsert x l := by
  simp only [setInsert]
  split
  · exact hy
  · exact List.mem_cons_of_mem x hy

/-- splitOnceChar finds the first occurrence: a successful split
reassembles to the input with the separator between the pieces, and the
separator does not occur in the first piece. -/
theorem splitOnceChar_eq (c : Char) (l : List Char) :
    ∀ a b, splitOnceChar c l = some (a, b) → l = a ++ c :: b ∧ c ∉ a := by
  induction l with
  | nil =>
    intro a b h
    simp [splitOnceChar] at h
  | cons x xs ih =>
    intro a b h
    by_cases hx : x = c
    · simp only [splitOnceChar, if_pos hx, Option.some.injEq, Prod.mk.injEq] at h
      obtain ⟨rfl, rfl⟩ := h
      simp [hx]
    · simp only [splitOnceChar, if_neg hx, Option.map_eq_some'] at h
      obtain ⟨⟨a1, b1⟩, hp, heq⟩ := h
      simp only [Prod.mk.injEq] at heq
      obtain ⟨rfl, rfl⟩ := heq
      obtain ⟨hl, hna⟩ := ih a1 b1 hp
      subst hl
      exact ⟨rfl, by simp [List.mem_cons, hx, hna]; exact fun hc => hx (hc ▸ rfl)⟩

/-- For a name that is not hidden, a successful rsplit on the dot is
exactly what Path::extension returns: the leading piece cannot be empty
and the name cannot be dot-dot. -/
theorem pathExtension_of_rsplit (name before minimal : String)
    (hh : startsWithChar ('.' : Char) name = false)
    (hr : rsplitOnceDot name = some (before, minimal)) :
    pathExtension name = some minimal := by
  simp only [rsplitOnceDot, Option.map_eq_some'] at hr
  obtain ⟨⟨p1, p2⟩, hp, heq⟩ := hr
  simp only [Prod.mk.injEq] at heq
  obtain ⟨hbefore, hminimal⟩ := heq
  obtain ⟨hdecomp, -⟩ := splitOnceChar_eq ('.' : Char) name.data.reverse p1 p2 hp
  have hdata : name.data = p2.reverse ++ ('.' : Char) :: p1.reverse := by
    have := congrArg List.reverse hdecomp
    simpa [List.reverse_append] using this
  have hp2 : p2 ≠ [] := by
    intro hnil
    rw [hnil] at hdata
    simp only [List.reverse_nil, List.nil_append] at hdata
    rw [startsWithChar, hdata] at hh
    simp at hh
  have hnotdd : name ≠ ".." := by
    intro hdd
    rw [startsWithChar, hdd] at hh
    simp at hh
  subst hbefore
  subst hminimal
  have hbne : (String.mk p2.reverse) ≠ "" := by
    intro hbe
    have := congrArg String.data hbe
    simp at this
    exact hp2 (by simpa using congrArg List.reverse this)
  simp only [pathExtension, if_neg hnotdd, rsplitOnceDot, hp, Option.map_some']
  rw [if_neg hbne]

/-- Claim C4: a file entry of the scan always lands in the files and
file_names sets; a hidden file (name starting with a dot) contributes no
extension at all; a non-hidden file contributes both its minimal extension
(the piece after the last dot) and its full extension (the piece after the
first dot) to the extensions set. -/
theorem c4_extension_extraction (follow_symlinks : Bool) (acc : DirContents)
    (entry : DirEntry)
    (hfile : (if follow_symlinks then entry.pathIsDir else entry.symlinkIsDir.getD false)
      = false) :
    (entry.name ∈ (processEntry follow_symlinks acc entry).files
      ∧ entry.name ∈ (processEntry follow_symlinks acc entry).file_names)
    ∧ (startsWithChar ('.' : Char) entry.name = true →
        (processEntry follow_symlinks acc entry).extensions = acc.extensions)
    ∧ (startsWithChar ('.' : Char) entry.name = false →
        (∀ before minimal, rsplitOnceDot entry.name = some (before, minimal) →
            minimal ∈ (processEntry follow_symlinks acc entry).extensions)
          ∧ (∀ before full, splitOnceDot entry.name = some (before, full) →
              full ∈ (processEntry follow_symlinks acc entry).extensions)) := by
  simp only [processEntry, hfile, if_false, Bool.false_eq_true]
  refine ⟨⟨mem_setInsert_self _ _, mem_setInsert_self _ _⟩, ?_, ?_⟩
  · intro hh
    simp [hh]
  · intro hh
    refine ⟨?_, ?_⟩
    · intro before minimal hr
      have hext := pathExtension_of_rsplit entry.name before minimal hh hr
      simp only [hh, Bool.not_false, if_true, hext]
      cases hs : splitOnceDot entry.name with
      | none => simp [hs, mem_setInsert_self]
      | some p => simp [hs, mem_setInsert_of_mem _ _ _ (mem_setInsert_self _ _)]
    · intro before full hs
      simp only [hh, Bool.not_false, if_true, hs]
      exact mem_setInsert_self _ _

/-- Witness for C4 at concrete names: foo.tar.gz contributes both gz and
tar.gz; the hidden .env contributes no extension yet is recorded among
files and file_names. -/
theorem c4_extension_extraction_witness :
    ("gz" ∈ (processEntry true (DirContents.mk [] [] [] [])
        (DirEntry.mk "foo.tar.gz" false (some false))).extensions
      ∧ "tar.gz" ∈ (processEntry true (DirContents.mk [] [] [] [])
        (DirEntry.mk "foo.tar.gz" false (some false))).extensions)
    ∧ ((processEntry true (DirContents.mk [] [] [] [])
        (DirEntry.mk ".env" false (some false))).extensions = []
      ∧ ".env" ∈ (processEntry true (DirContents.mk [] [] [] [])
        (DirEntry.mk ".env" false (some false))).files
      ∧ ".env" ∈ (processEntry true (DirContents.mk [] [] [] [])
        (DirEntry.mk ".env" false (some false))).file_names) := by
  have h1 := c4_extension_extraction true (DirContents.mk [] [] [] [])
    (DirEntry.mk "foo.tar.gz" false (some false)) (by decide)
  have h2 := c4_extension_extraction true (DirContents.mk [] [] [] [])
    (DirEntry.mk ".env" false (some false)) (by decide)
  refine ⟨⟨?_, ?_⟩, h2.2.1 (by decide), h2.1.1, h2.1.2⟩
  · exact (h1.2.2 (by decide)).1 "foo.tar" "gz" (by decide)
  · exact (h1.2.2 (by decide)).2 "foo" "tar.gz" (by decide)

/-- Unfolding of scanEnum on a nonempty listing. -/
theorem scanEnum_cons (cfg_test : Bool) (f : Nat → Bool) (n : Nat) (e : Option DirEntry)
    (es : List (Option DirEntry)) :
    scanEnum cfg_test f n (e :: es)
      = if cfg_test || ((n &&& 0xFF) != 0) || f n then
          e :: scanEnum cfg_test f (n + 1) es
        else [] := rfl

/-- The scan prefix only consults the clock at entry indices whose low
eight bits are all zero: two clock oracles agreeing on those indices
produce the same prefix. -/
theorem scanEnum_congr (f g : Nat → Bool)
    (hfg : ∀ k, k &&& 0xFF = 0 → f k = g k) (es : List (Option DirEntry)) :
    ∀ n, scanEnum false f n es = scanEnum false g n es := by
  induction es with
  | nil => intro n; rfl
  | cons e es ih =>
    intro n
    by_cases h : (n &&& 0xFF) = 0
    · simp [scanEnum, h, hfg n h, ih]
    · have hb : ((n &&& 0xFF) != 0) = true := by simpa [bne_iff_ne] using h
      simp [scanEnum, hb, ih]

/-- The scan prefix is an initial segment of the raw listing: entries after
the first failed check are skipped wholesale. -/
theorem scanEnum_eq_take (f : Nat → Bool) (es : List (Option DirEntry)) :
    ∀ n, ∃ k, scanEnum false f n es = es.take k := by
  induction es with
  | nil => intro n; exact ⟨0, rfl⟩
  | cons e es ih =>
    intro n
    cases hc : (false || ((n &&& 0xFF) != 0) || f n) with
    | true =>
      obtain ⟨k, hk⟩ := ih (n + 1)
      refine ⟨k + 1, ?_⟩
      rw [scanEnum_cons, hc]
      simp [hk]
    | false =>
      refine ⟨0, ?_⟩
      rw [scanEnum_cons, hc]
      simp

/-- Once a clock check fails at a checked index, no entry at or past that
index is processed. -/
theorem scanEnum_stops (f : Nat → Bool) (j : Nat) (hj : j &&& 0xFF = 0)
    (hf : f j = false) (es : List (Option DirEntry)) :
    ∀ n, n ≤ j → (scanEnum false f n es).length ≤ j - n := by
  induction es with
  | nil => intro n _; simp [scanEnum]
  | cons e es ih =>
    intro n hn
    by_cases hnj : n = j
    · subst hnj
      simp [scanEnum, hj, hf]
    · have hlt : n < j := lt_of_le_of_ne hn hnj
      cases hc : (false || ((n &&& 0xFF) != 0) || f n) with
      | true =>
        have hrec := ih (n + 1) (by omega)
        rw [scanEnum_cons, hc]
        simp only [if_true, List.length_cons]
        omega
      | false =>
        rw [scanEnum_cons, hc]
        simp

/-- Claim C5: the scan fails only when the initial directory read itself
fails, and the error is that read's error; a successful read always
produces Ok, never an error from the timeout; the clock is consulted only
at entry indices with all low eight bits zero (every 256th entry); the
processed entries are an initial segment of the listing; and once the
budget is exceeded at a checked index, everything from that index on is
skipped. -/
theorem c5_soft_timeout (follow_symlinks : Bool) (elapsed_lt elapsed_lt2 : Nat → Bool) :
    (∀ e, from_path_with_timeout follow_symlinks elapsed_lt (Except.error e)
        = Except.error e)
    ∧ (∀ entries, ∃ d,
        from_path_with_timeout follow_symlinks elapsed_lt (Except.ok entries)
          = Except.ok d)
    ∧ ((∀ k, k &&& 0xFF = 0 → elapsed_lt k = elapsed_lt2 k) →
        ∀ rd, from_path_with_timeout follow_symlinks elapsed_lt rd
            = from_path_with_timeout follow_symlinks elapsed_lt2 rd)
    ∧ (∀ entries, ∃ k,
        scanEnum false elapsed_lt 0 entries = entries.take k)
    ∧ (∀ j, j &&& 0xFF = 0 → elapsed_lt j = false →
        ∀ entries, (scanEnum false elapsed_lt 0 entries).length ≤ j) := by
  refine ⟨fun e => rfl, fun entries => ⟨_, rfl⟩, ?_, ?_, ?_⟩
  · intro h rd
    cases rd with
    | error e => rfl
    | ok entries =>
      simp only [from_path_with_timeout, scanEnum_congr elapsed_lt elapsed_lt2 h entries 0]
  · intro entries
    exact scanEnum_eq_take elapsed_lt entries 0
  · intro j hj hf entries
    simpa using scanEnum_stops elapsed_lt j hj hf entries 0 (Nat.zero_le j)

/-- Witness for C5 at a concrete listing and clock: a failed read
propagates its error, a successful read under an expired clock still
returns Ok, and with the very first check failing no entry at all is
processed. -/
theorem c5_soft_timeout_witness :
    (from_path_with_timeout true (fun _ => false) (Except.error 3) = Except.error 3)
    ∧ (∃ d, from_path_with_timeout true (fun _ => false)
        (Except.ok [some (DirEntry.mk "a.rs" false (some false))]) = Except.ok d)
    ∧ ((scanEnum false (fun _ => false) 0
        [some (DirEntry.mk "a.rs" false (some false))]).length ≤ 0) := by
  have h := c5_soft_timeout true (fun _ => false) (fun _ => false)
  exact ⟨h.1 3,
    h.2.1 [some (DirEntry.mk "a.rs" false (some false))],
    h.2.2.2.2 0 (by decide) rfl [some (DirEntry.mk "a.rs" false (some false))]⟩

/-- Unfolding of the ancestor-scan loop. -/
theorem scanLoop_unfold (fs : FsOracle) (fi fo : List String) (dev : Option Nat)
    (buf : List String) :
    scanLoop fs fi fo dev buf
      = if dev ≠ fs.deviceId buf then none
        else if fi.any (fun file => fs.isFile (buf ++ [file])) then some buf
        else if fo.any (fun folder => fs.isDir (buf ++ [folder])) then some buf
        else if buf = [] then none
        else scanLoop fs fi fo dev buf.dropLast := by
  rw [scanLoop]
  simp only [dite_eq_ite]

/-- Iterated dropLast of the empty path is the empty path. -/
theorem iterDropLast_nil (k : Nat) : iterDropLast k ([] : List String) = [] := by
  induction k with
  | zero => rfl
  | succ k ih => simpa [iterDropLast] using ih

/-- Iterated dropLast of a nonempty path steps to its parent. -/
theorem iterDropLast_concat (k : Nat) (xs : List String) (x : String) :
    iterDropLast (k + 1) (xs ++ [x]) = iterDropLast k xs := by
  simp [iterDropLast, List.dropLast_concat]

/-- A level with the device intact and a marker present ends the walk at
that level. -/
theorem scanLoop_marker_some (fs : FsOracle) (fi fo : List String) (dev : Option Nat)
    (buf : List String) (hdev : dev = fs.deviceId buf)
    (hmk : levelHasMarker fs fi fo buf = true) :
    scanLoop fs fi fo dev buf = some buf := by
  rw [scanLoop_unfold, if_neg (not_not_intro hdev)]
  rcases Bool.or_eq_true_iff.mp hmk with hfi | hfo
  · rw [if_pos hfi]
  · by_cases hfi : fi.any (fun file => fs.isFile (buf ++ [file])) = true
    · rw [if_pos hfi]
    · rw [if_neg hfi, if_pos hfo]

/-- Characterization of the ancestor-scan loop: it returns a level r
exactly when r is the k-th ancestor of the start for some k, every level
down to and including r still carries the starting device identifier,
every level strictly above the start-side of r has no marker and still has
a parent, and r itself carries a marker. -/
theorem scanLoop_some_iff (fs : FsOracle) (fi fo : List String) (dev : Option Nat)
    (buf : List String) :
    ∀ r : List String,
      scanLoop fs fi fo dev buf = some r ↔
        ∃ k, r = iterDropLast k buf
          ∧ (∀ j, j ≤ k → fs.deviceId (iterDropLast j buf) = dev)
          ∧ (∀ j, j < k → levelHasMarker fs fi fo (iterDropLast j buf) = false
              ∧ iterDropLast j buf ≠ [])
          ∧ levelHasMarker fs fi fo r = true := by
  induction buf using List.reverseRecOn with
  | nil =>
    intro r
    by_cases hdev : dev = fs.deviceId []
    · by_cases hmk : levelHasMarker fs fi fo [] = true
      · rw [scanLoop_marker_some fs fi fo dev [] hdev hmk]
        constructor
        · intro hsome
          obtain rfl : ([] : List String) = r := Option.some.inj hsome
          exact ⟨0, rfl, fun j _ => by rw [iterDropLast_nil]; exact hdev.symm,
            fun j hj => absurd hj (Nat.not_lt_zero j), hmk⟩
        · rintro ⟨k, hr, -, -, -⟩
          rw [hr, iterDropLast_nil]
      · have hmk1 : levelHasMarker fs fi fo [] = false := by simpa using hmk
        have hsplit := hmk1
        simp only [levelHasMarker, Bool.or_eq_false_iff] at hsplit
        rw [scanLoop_unfold, if_neg (not_not_intro hdev), if_neg (by rw [hsplit.1]; simp),
          if_neg (by rw [hsplit.2]; simp), if_pos rfl]
        constructor
        · intro h
          simp at h
        · rintro ⟨k, hr, -, -, hmkr⟩
          rw [hr, iterDropLast_nil] at hmkr
          exact absurd hmkr (by simp [hmk1])
    · rw [scanLoop_unfold, if_pos hdev]
      constructor
      · intro h
        simp at h
      · rintro ⟨k, -, hdevs, -, -⟩
        have h0 := hdevs 0 (Nat.zero_le k)
        simp only [iterDropLast] at h0
        exact absurd h0.symm hdev
  | append_singleton xs x ih =>
    intro r
    by_cases hdev : dev = fs.deviceId (xs ++ [x])
    · by_cases hmk : levelHasMarker fs fi fo (xs ++ [x]) = true
      · rw [scanLoop_marker_some fs fi fo dev (xs ++ [x]) hdev hmk]
        constructor
        · intro hsome
          obtain rfl : xs ++ [x] = r := Option.some.inj hsome
          refine ⟨0, rfl, ?_, fun j hj => absurd hj (Nat.not_lt_zero j), hmk⟩
          intro j hj
          obtain rfl : j = 0 := Nat.le_zero.mp hj
          exact hdev.symm
        · rintro ⟨k, hr, hdevs, hmarks, hmkr⟩
          cases k with
          | zero =>
            rw [hr]
            rfl
          | succ k =>
            obtain ⟨hm0, -⟩ := hmarks 0 (Nat.succ_pos k)
            simp only [iterDropLast] at hm0
            exact absurd hmk (by simp [hm0])
      · have hmk1 : levelHasMarker fs fi fo (xs ++ [x]) = false := by simpa using hmk
        have hsplit := hmk1
        simp only [levelHasMarker, Bool.or_eq_false_iff] at hsplit
        rw [scanLoop_unfold, if_neg (not_not_intro hdev), if_neg (by rw [hsplit.1]; simp),
          if_neg (by rw [hsplit.2]; simp), if_neg (by simp), List.dropLast_concat, ih r]
        constructor
        · rintro ⟨k, hr, hdevs, hmarks, hmkr⟩
          refine ⟨k + 1, ?_, ?_, ?_, hmkr⟩
          · rw [iterDropLast_concat]
            exact hr
          · intro j hj
            cases j with
            | zero =>
              simpa only [iterDropLast] using hdev.symm
            | succ j =>
              rw [iterDropLast_concat]
              exact hdevs j (Nat.succ_le_succ_iff.mp hj)
          · intro j hj
            cases j with
            | zero =>
              exact ⟨by simpa only [iterDropLast] using hmk1, by simp [iterDropLast]⟩
            | succ j =>
              rw [iterDropLast_concat]
              exact hmarks j (Nat.succ_lt_succ_iff.mp hj)
        · rintro ⟨k, hr, hdevs, hmarks, hmkr⟩
          cases k with
          | zero =>
            simp only [iterDropLast] at hr
            rw [hr] at hmkr
            exact absurd hmkr (by simp [hmk1])
          | succ k =>
            refine ⟨k, ?_, ?_, ?_, hmkr⟩
            · rw [hr, iterDropLast_concat]
            · intro j hj
              have hd := hdevs (j + 1) (Nat.succ_le_succ hj)
              rwa [iterDropLast_concat] at hd
            · intro j hj
              have hm := hmarks (j + 1) (Nat.succ_lt_succ hj)
              rwa [iterDropLast_concat] at hm
    · rw [scanLoop_unfold, if_pos hdev]
      constructor
      · intro h
        simp at h
      · rintro ⟨k, -, hdevs, -, -⟩
        have h0 := hdevs 0 (Nat.zero_le k)
        simp only [iterDropLast] at h0
        exact absurd h0.symm hdev

/-- Claim C6: the ancestor scan records the starting path's device
identifier and walks upward; at every level it tests the configured file
names before the configured folder names, each in list order, returning
the first level that carries a marker (a hit returns the level itself, so
any hit at a level ends the walk there); it returns none as soon as the
device identifier of the current level differs from the starting one, or
when the level without a marker has no parent left; hence a returned level
is exactly the nearest ancestor with a marker, every level walked through
having kept the starting device identifier. -/
theorem c6_ancestor_scan (fs : FsOracle) (s : ScanAncestors) (r : List String) :
    (ScanAncestors.scan fs s
        = scanLoop fs s.files s.folders (fs.deviceId s.path) s.path)
    ∧ (∀ dev buf, dev ≠ fs.deviceId buf → scanLoop fs s.files s.folders dev buf = none)
    ∧ (∀ dev buf, dev = fs.deviceId buf →
        levelHasMarker fs s.files s.folders buf = false → buf = [] →
        scanLoop fs s.files s.folders dev buf = none)
    ∧ (∀ dev buf, dev = fs.deviceId buf →
        levelHasMarker fs s.files s.folders buf = true →
        scanLoop fs s.files s.folders dev buf = some buf)
    ∧ (ScanAncestors.scan fs s = some r ↔
        ∃ k, r = iterDropLast k s.path
          ∧ (∀ j, j ≤ k → fs.deviceId (iterDropLast j s.path) = fs.deviceId s.path)
          ∧ (∀ j, j < k →
              levelHasMarker fs s.files s.folders (iterDropLast j s.path) = false
                ∧ iterDropLast j s.path ≠ [])
          ∧ levelHasMarker fs s.files s.folders r = true) := by
  refine ⟨rfl, ?_, ?_, ?_,
    scanLoop_some_iff fs s.files s.folders (fs.deviceId s.path) s.path r⟩
  · intro dev buf hne
    rw [scanLoop_unfold, if_pos hne]
  · intro dev buf hdev hmk hnil
    subst hnil
    have hsplit := hmk
    simp only [levelHasMarker, Bool.or_eq_false_iff] at hsplit
    rw [scanLoop_unfold, if_neg (not_not_intro hdev), if_neg (by rw [hsplit.1]; simp),
      if_neg (by rw [hsplit.2]; simp), if_pos rfl]
  · intro dev buf hdev hmk
    exact scanLoop_marker_some fs s.files s.folders dev buf hdev hmk

/-- Witness for C6: with a marker file two levels up found one level up,
the scan returns the first ancestor carrying it, and a device mismatch at
the starting level yields none. -/
theorem c6_ancestor_scan_witness :
    ScanAncestors.scan
        (FsOracle.mk (fun p => p == ["a", "f"]) (fun _ => false) (fun _ => some 1))
        (ScanAncestors.mk ["a", "b"] ["f"] ["g"]) = some ["a"]
    ∧ scanLoop
        (FsOracle.mk (fun p => p == ["a", "f"]) (fun _ => false) (fun _ => some 1))
        ["f"] ["g"] (some 2) ["a", "b"] = none := by
  have h := c6_ancestor_scan
    (FsOracle.mk (fun p => p == ["a", "f"]) (fun _ => false) (fun _ => some 1))
    (ScanAncestors.mk ["a", "b"] ["f"] ["g"]) ["a"]
  refine ⟨h.2.2.2.2.mpr ⟨1, by decide, fun j hj => rfl, ?_, by decide⟩,
    h.2.1 (some 2) ["a", "b"] (by decide)⟩
  intro j hj
  obtain rfl : j = 0 := by omega
  exact ⟨by decide, by decide⟩

/-- Counterexample for C9: with path and logical path both the tilde path
consisting of the components tilde then x, home the components home then
user, and a canonicalize oracle that always fails, the fallback current_dir
is the tilde-expanded path while logical_dir keeps the tilde unexpanded, so
current_dir differs from logical_dir — the claim's assertion that
canonicalization failure forces current_dir to equal logical_dir is false
(the repository's own fall-back-to-tilde test exhibits exactly this). -/
theorem c9_counterexample :
    ¬((contextDirs ["home", "user"] (fun _ => none) ["~", "x"] ["~", "x"]).1
        = (contextDirs ["home", "user"] (fun _ => none) ["~", "x"] ["~", "x"]).2) := by
  decide

/-- Claim C9, amended: current_dir is the tilde-expanded input path
canonicalized when canonicalization succeeds, so a symlinked input whose
resolution differs from the logical path gives current_dir distinct from
logical_dir; when canonicalization fails, current_dir is the tilde-expanded
but otherwise unmodified path, and current_dir equals logical_dir provided
the input path does not start with the tilde component and both directories
were constructed from the same input; logical_dir is always the logical
path argument verbatim. -/
theorem c9_current_dir_resolution (home : List String)
    (canonicalize : List String → Option (List String)) (path logical_path : List String) :
    ((contextDirs home canonicalize path logical_path).2 = logical_path)
    ∧ (∀ q, canonicalize (expand_tilde home path) = some q →
        (contextDirs home canonicalize path logical_path).1 = q)
    ∧ (∀ q, canonicalize (expand_tilde home path) = some q → q ≠ logical_path →
        (contextDirs home canonicalize path logical_path).1
          ≠ (contextDirs home canonicalize path logical_path).2)
    ∧ (canonicalize (expand_tilde home path) = none →
        (contextDirs home canonicalize path logical_path).1 = expand_tilde home path
          ∧ (path.head? ≠ some "~" → path = logical_path →
              (contextDirs home canonicalize path logical_path).1
                = (contextDirs home canonicalize path logical_path).2)) := by
  refine ⟨rfl, ?_, ?_, ?_⟩
  · intro q hq
    simp [contextDirs, hq]
  · intro q hq hne
    simpa [contextDirs, hq] using hne
  · intro hq
    refine ⟨by simp [contextDirs, hq], ?_⟩
    intro hh hpl
    subst hpl
    have he : expand_tilde home path = path := by simp [expand_tilde, hh]
    rw [he] at hq
    simp [contextDirs, expand_tilde, hh, hq]

/-- Witness for C9 at concrete inputs: a symlinked path resolving elsewhere
makes the two directories differ, and a tilde-free nonexistent path makes
them coincide. -/
theorem c9_current_dir_resolution_witness :
    ((contextDirs [] (fun _ => some ["real", "x"]) ["sym", "x"] ["sym", "x"]).1
        ≠ (contextDirs [] (fun _ => some ["real", "x"]) ["sym", "x"] ["sym", "x"]).2)
    ∧ ((contextDirs [] (fun _ => none) ["gone", "x"] ["gone", "x"]).1
        = (contextDirs [] (fun _ => none) ["gone", "x"] ["gone", "x"]).2) := by
  have h1 := c9_current_dir_resolution [] (fun _ => some ["real", "x"]) ["sym", "x"] ["sym", "x"]
  have h2 := c9_current_dir_resolution [] (fun _ => none) ["gone", "x"] ["gone", "x"]
  exact ⟨h1.2.2.1 ["real", "x"] rfl (by decide),
    (h2.2.2.2 rfl).2 (by decide) rfl⟩
end Starship
